import Mathlib

/-!
# Verification of `microscopium/screens/cellomics.py`

Shallow embedding of the Cellomics screen-processing module: the filename
decoder `cellomics_semantic_filename`, the channel grouping of
`batch_stitch_stack` (lines 46-48), the spiral stitcher `snail_stitch`,
the bit-depth rescaler `rescale_from_12bit` and the channel compositor
`stack_channels`.

Python strings are embedded as `List Char` (comparison by code point,
matching CPython's string ordering).  Pixel values are embedded as exact
rationals.  Fallible operations return `Except PyError`; the constructors
of `PyError` cover both the exceptions the Python runtime can actually
raise in this module (ValueError, IndexError, AttributeError) and the
dedicated error kinds named by the specification (which the source never
raises), so that statements can compare the two.
-/

/-- Exceptions: the first three are what the CPython runtime raises in this
module; the remaining constructors are the dedicated error kinds named by
the specification, present only so statements can mention them. -/
inductive PyError where
  | valueError
  | indexError
  | attributeError
  | malformedFilenameError
  | tileCountError
  | tileShapeMismatchError
  | shapeMismatchError
  | unsupportedBitDepthError
deriving DecidableEq, Repr

/-- A Python string, as its list of characters. -/
abbrev FNm := List Char

/-- Python list/str indexing `l[i]` for `i ≥ 0`: raises IndexError past the end. -/
def pyGet {α : Type _} : List α → ℕ → Except PyError α
  | [], _ => Except.error PyError.indexError
  | x :: _, 0 => Except.ok x
  | _ :: xs, n + 1 => pyGet xs n

/-- Python `str.split(sep)` for a one-character separator: splits at every
occurrence, keeping empty parts; a string with no separator yields itself. -/
def pySplit (sep : Char) : List Char → List (List Char)
  | [] => [[]]
  | c :: cs =>
    if c = sep then [] :: pySplit sep cs
    else
      match pySplit sep cs with
      | p :: ps => (c :: p) :: ps
      | [] => [[c]]

/-- Index just past the last occurrence of `sep` (0 when absent):
Python's `p.rfind(sep) + 1`. -/
def rfindAfter (sep : Char) : List Char → ℕ
  | [] => 0
  | c :: cs =>
    let r := rfindAfter sep cs
    if r > 0 then r + 1 else if c = sep then 1 else 0

/-- Python `s.rstrip(ch)` for a single strip character. -/
def rstripChar (ch : Char) (l : List Char) : List Char :=
  (l.reverse.dropWhile (fun c => c = ch)).reverse

/-- `os.path.split` (posixpath): split at the last `'/'`; a head that is not
entirely slashes is stripped of trailing slashes. -/
def osPathSplit (p : List Char) : List Char × List Char :=
  let i := rfindAfter '/' p
  let head := p.take i
  let tail := p.drop i
  (if head ≠ [] ∧ head.any (fun c => c ≠ '/') then rstripChar '/' head else head, tail)

/-- Numeric value of a digit string (most significant first). -/
def digitsVal (s : List Char) : ℤ :=
  s.foldl (fun a c => 10 * a + ((c.toNat : ℤ) - 48)) 0

/-- Python `int(s)`: an optional sign followed by at least one decimal digit
(Python additionally strips surrounding whitespace and allows `_` digit
grouping; neither occurs in Cellomics names).  Raises ValueError otherwise. -/
def pyInt (s : List Char) : Except PyError ℤ :=
  match s with
  | '-' :: r =>
    if r ≠ [] ∧ r.all Char.isDigit then Except.ok (-(digitsVal r))
    else Except.error PyError.valueError
  | '+' :: r =>
    if r ≠ [] ∧ r.all Char.isDigit then Except.ok (digitsVal r)
    else Except.error PyError.valueError
  | _ =>
    if s ≠ [] ∧ s.all Char.isDigit then Except.ok (digitsVal s)
    else Except.error PyError.valueError

/-- The decoded components of a Cellomics filename: the `OrderedDict`
returned by `cellomics_semantic_filename`, as a fixed-field record. -/
structure SemanticFilename where
  directory : List Char
  pfx : List Char
  plate : ℤ
  well : List Char
  field : ℤ
  channel : ℤ
  suffix : List Char
deriving DecidableEq, Repr

/-- `cellomics_semantic_filename` (cellomics.py lines 244-279): split off the
directory, split the base name at periods into stem and suffix, split the
stem at underscores (dropping a redundant fourth segment), then slice the
code segment into well / field / channel and parse the integers. -/
def cellomics_semantic_filename (fnInput : FNm) : Except PyError SemanticFilename :=
  let ds := osPathSplit fnInput
  let directory := ds.1
  let fn := ds.2
  let dotParts := pySplit '.' fn
  let filename := dotParts.headD []
  let suffix := List.intercalate ['.'] dotParts.tail
  let split0 := pySplit '_' filename
  let split_fn := if split0.length = 4 then split0.dropLast else split0
  match split_fn with
  | [pfx, plateStr, code] =>
    let well := code.take 3
    do
      let field ← pyInt ((code.drop 4).take 2)
      let lastc ← (match code.getLast? with
                   | some c => Except.ok c
                   | none => Except.error PyError.indexError)
      let channel ← pyInt [lastc]
      let plate ← pyInt plateStr
      Except.ok ⟨directory, pfx, plate, well, field, channel, suffix⟩
  | _ => Except.error PyError.valueError

/-- `get_channel` (cellomics.py lines 196-217). -/
def get_channel (fn : FNm) : Except PyError ℤ := do
  let sem ← cellomics_semantic_filename fn
  Except.ok sem.channel

/-! ## Images -/

/-- Numeric element type of a numpy array (tracked as a tag; every operation
below either creates an array of a stated dtype or copies between arrays of
equal dtype, so no value conversion is modelled). -/
inductive DType where
  | uint8
  | uint16
  | float64
deriving DecidableEq, Repr

/-- A 2-D numpy array: shape `(m, n)` and pixel values (exact rationals stand
in for the numeric values; entries outside the shape are meaningless). -/
structure Img where
  m : ℕ
  n : ℕ
  dtype : DType
  px : ℕ → ℕ → ℚ

/-- A 3-D `(m, n, 3)` numpy array; the third index is the channel. -/
structure Img3 where
  m : ℕ
  n : ℕ
  dtype : DType
  px : ℕ → ℕ → ℕ → ℚ

/-! ## `snail_stitch` (cellomics.py lines 139-172) -/

/-- Python string `<` / `≤`: code-point lexicographic comparison. -/
def pyStrLe : List Char → List Char → Bool
  | [], _ => true
  | _ :: _, [] => false
  | a :: as, b :: bs =>
    if a.toNat < b.toNat then true
    else if b.toNat < a.toNat then false
    else pyStrLe as bs

/-- The string order as a relation, for `List.insertionSort`. -/
def StrLe (a b : FNm) : Prop := pyStrLe a b = true

instance : DecidableRel StrLe := fun a b => by unfold StrLe; infer_instance

/-- `fns.sort()`: Python's stable ascending sort.  On strings,
comparator-equivalent elements are equal, so any comparison sort computes the
same list; we use insertion sort. -/
def sortPy (l : List FNm) : List FNm := List.insertionSort StrLe l

/-- The fixed clockwise-from-center spiral table `order`. -/
def snailOrderTable : List (List ℕ) :=
  [[20, 21, 22, 23, 24],
   [19,  6,  7,  8,  9],
   [18,  5,  0,  1, 10],
   [17,  4,  3,  2, 11],
   [16, 15, 14, 13, 12]]

/-- Pure lookup into the spiral table (the loop only uses `i, j < 5`). -/
def snailIdx (cell : ℕ × ℕ) : ℕ := ((snailOrderTable.getD cell.1 []).getD cell.2 0)

/-- The numpy slice assignment
`stitched_image[m*i:m*(i+1), n*j:n*(j+1)] = src` as a function update; `src`
may be broadcast (a dimension of size 1 is replicated), which the index
arithmetic `% src.m` / `% src.n` realises. -/
def placeTile (m n i j : ℕ) (src : Img) (old : ℕ → ℕ → ℚ) : ℕ → ℕ → ℚ :=
  fun r c =>
    if m * i ≤ r ∧ r < m * (i + 1) ∧ n * j ≤ c ∧ c < n * (j + 1) then
      src.px ((r - m * i) % src.m) ((c - n * j) % src.n)
    else old r c

/-- The 25 grid cells `(i, j)` in the row-major order of the nested loops. -/
def gridCells : List (ℕ × ℕ) :=
  (List.range 5).flatMap fun i => (List.range 5).map fun j => (i, j)

/-- One iteration of the stitching loop body: look up the spiral index, fetch
the filename, read the tile and assign it into the output slice.  A numpy
assignment raises ValueError when the tile's shape neither matches the
`(m, n)` slice nor is broadcastable onto it. -/
def stitchStep (imread : FNm → Img) (fns : List FNm) (m n : ℕ)
    (px : ℕ → ℕ → ℚ) (cell : ℕ × ℕ) : Except PyError (ℕ → ℕ → ℚ) := do
  let row ← pyGet snailOrderTable cell.1
  let index ← pyGet row cell.2
  let fn ← pyGet fns index
  let image := imread fn
  if (image.m = m ∨ image.m = 1) ∧ (image.n = n ∨ image.n = 1) then
    Except.ok (placeTile m n cell.1 cell.2 image px)
  else Except.error PyError.valueError

/-- `snail_stitch`: `fns.sort()` mutates the caller's list, so the embedding
returns the post-call list alongside the result.  `io.imread` is the external
image codec, passed in as a function. -/
def snail_stitch (imread : FNm → Img) (fns0 : List FNm) :
    List FNm × Except PyError Img :=
  let fns := sortPy fns0
  (fns,
    do
      let f0 ← pyGet fns 0
      let image0 := imread f0
      let m := image0.m
      let n := image0.n
      let px ← gridCells.foldlM (stitchStep imread fns m n) (fun _ _ => 0)
      Except.ok ⟨5 * m, 5 * n, DType.float64, px⟩)

/-! ## `stack_channels` (cellomics.py lines 104-136) -/

/-- The numpy assignment `concat_image[:, :, i] = src` (with 2-D broadcast
via the `%` index arithmetic, as in `placeTile`). -/
def updateChannel3 (acc : Img3) (i : ℕ) (src : Img) : Img3 :=
  { acc with
    px := fun r c ch =>
      if ch = i then src.px (r % src.m) (c % src.n) else acc.px r c ch }

/-- One iteration of the `stack_channels` loop body:
`if images[order[i]] is not None: concat_image[:, :, i] = images[order[i]]`.
A numpy assignment raises ValueError when the entry's shape neither matches
the `(m, n)` slice nor is broadcastable onto it. -/
def stackStep (images : List (Option Img)) (ord : List ℕ) (m n : ℕ)
    (acc : Img3) (i : ℕ) : Except PyError Img3 := do
  let oi ← pyGet ord i
  let entry ← pyGet images oi
  match entry with
  | none => Except.ok acc
  | some im =>
    if (im.m = m ∨ im.m = 1) ∧ (im.n = n ∨ im.n = 1) then
      Except.ok (updateChannel3 acc i im)
    else Except.error PyError.valueError

/-- `stack_channels`: reads `images[0].shape` (AttributeError when entry 0 is
`None`), allocates a zero `(m, n, 3)` array of `images[0]`'s dtype, then for
`i` in `0, 1, 2` copies `images[order[i]]` into output channel `i` unless that
entry is `None`. -/
def stack_channels (images : List (Option Img)) (order : List ℕ) :
    Except PyError Img3 := do
  let first ← pyGet images 0
  let img0 ← (match first with
              | some im => Except.ok im
              | none => Except.error PyError.attributeError)
  (List.range 3).foldlM (stackStep images order img0.m img0.n)
    ⟨img0.m, img0.n, img0.dtype, fun _ _ _ => 0⟩

/-! ## `rescale_from_12bit` (cellomics.py lines 67-101) -/

/-- A 2-D image as nested lists of exact values, for concrete computation. -/
abbrev QImg := List (List ℚ)

/-- Modelled from the spec: `stretchlim` (microscopium.preprocess) is not
under `src/`; per §4.4/§6 it is a percentile-clipped linear normalization
into [0,1], and under the no-clip configuration used by the claims the clip
bounds are the true minimum and maximum.  A constant image (degenerate
denominator) is mapped to zero. -/
def stretchlim (img : QImg) : QImg :=
  match img.flatten with
  | [] => img
  | e :: es =>
    let lo := es.foldl min e
    let hi := es.foldl max e
    if hi = lo then img.map (List.map fun _ => 0)
    else img.map (List.map fun v => (v - lo) / (hi - lo))

/-- `np.round`: round half to even. -/
def npRound (q : ℚ) : ℤ :=
  if q - ⌊q⌋ = 1 / 2 then (if ⌊q⌋ % 2 = 0 then ⌊q⌋ else ⌊q⌋ + 1)
  else round q

/-- Result of `rescale_from_12bit`: an unsigned 8-bit image, an unsigned
16-bit image, or the normalized floating image passed through unscaled. -/
inductive RescaleResult where
  | u8 (pix : List (List ℕ))
  | u16 (pix : List (List ℕ))
  | passthrough (pix : QImg)
deriving DecidableEq, Repr

/-- `rescale_from_12bit`: stretch, then scale and cast per the target depth;
any target other than 8 or 16 (including `None`) falls into the bare `else`
and returns the stretched image unscaled. -/
def rescale_from_12bit (image : QImg) (target_bit_depth : Option ℤ) :
    RescaleResult :=
  let s := stretchlim image
  if target_bit_depth = some 8 then
    RescaleResult.u8 (s.map (List.map fun v => (npRound (v * 255)).toNat % 256))
  else if target_bit_depth = some 16 then
    RescaleResult.u16 (s.map (List.map fun v => (npRound (v * 65535)).toNat % 65536))
  else RescaleResult.passthrough s

/-! ## Channel grouping in `batch_stitch_stack` (cellomics.py lines 46-48) -/

/-- `cytoolz.groupby`'s dict update: append `x` to the entry for `k`,
creating the entry (at the end, in dict insertion order) if absent. -/
def dictAppend {β α : Type _} [DecidableEq β] :
    List (β × List α) → β → α → List (β × List α)
  | [], k, x => [(k, [x])]
  | (k', xs) :: rest, k, x =>
    if k' = k then (k', xs ++ [x]) :: rest else (k', xs) :: dictAppend rest k x

/-- `cytoolz.groupby(key, seq)` with a fallible key function (`get_channel`
raises on a malformed filename). -/
def groupbyM {α β : Type _} [DecidableEq β] (key : α → Except PyError β)
    (l : List α) : Except PyError (List (β × List α)) :=
  l.foldlM (fun d x => do
    let k ← key x
    Except.ok (dictAppend d k x)) []

/-- `np.max` over a Python list of ints (`None` when the list is empty, where
numpy raises). -/
def listMaxInt : List ℤ → Option ℤ
  | [] => none
  | x :: xs =>
    match listMaxInt xs with
    | none => some x
    | some mx => some (max x mx)

/-- The gap-filling loop
`while len(channels) < 3: channels[np.max(list(channels.keys())) + 1] = None`:
each pass appends a fresh key `max + 1` mapped to `None`. -/
def fillChannels (chs : List (ℤ × Option (List FNm))) :
    Except PyError (List (ℤ × Option (List FNm))) :=
  if _h : chs.length < 3 then
    match listMaxInt (chs.map Prod.fst) with
    | none => Except.error PyError.valueError
    | some k => fillChannels (chs ++ [(k + 1, none)])
  else Except.ok chs
termination_by 3 - chs.length
decreasing_by simp [List.length_append]; omega

/-- Lines 46-48 of `batch_stitch_stack`: group one well's filenames by
channel, then run the gap-filling loop.  The dict's values are
`Option (List FNm)`: grouping produces lists, the loop inserts `None`s. -/
def group_channels (fns : List FNm) :
    Except PyError (List (ℤ × Option (List FNm))) := do
  let g ← groupbyM get_channel fns
  fillChannels (g.map fun kv => (kv.1, some kv.2))

/-! ## The filename convention (spec §6), used to state inputs of C2 -/

/-- The two-digit zero-padded field component `f00` … `f24`. -/
def fieldDigits (f : ℕ) : List Char := [Nat.digitChar (f / 10), Nat.digitChar (f % 10)]

/-- A well-formed Cellomics filename
`<prefix>_<plateid>_<well>f<field-digit><field-digit>d<channel-digit>.<suffix>`. -/
def cellomicsName (pfx plateStr well : FNm) (f : ℕ) (chanChar : Char) (sfx : FNm) : FNm :=
  pfx ++ '_' :: plateStr ++ '_' :: well ++ 'f' :: fieldDigits f ++ 'd' :: chanChar :: '.' :: sfx

/-- The 25 filenames of one (plate, well, channel), fields 0 … 24, in field
order. -/
def nameList (pfx plateStr well : FNm) (chanChar : Char) (sfx : FNm) : List FNm :=
  (List.range 25).map fun f => cellomicsName pfx plateStr well f chanChar sfx

/-! ## Concrete inputs for counterexamples and witnesses -/

/-- A 1×1 tile holding a single constant value. -/
def onePx (v : ℚ) : Img := ⟨1, 1, DType.float64, fun _ _ => v⟩

/-- An image reader returning the same 1×1 tile for every name. -/
def constImread : FNm → Img := fun _ => onePx 0

/-- An image reader whose tile for `"b"` has shape 2×2 while every other
tile is 1×1: a non-broadcastable shape mismatch against a 1×1 first tile. -/
def mismatchImread : FNm → Img :=
  fun fn => if fn = ['b'] then ⟨2, 2, DType.float64, fun _ _ => 0⟩ else onePx 0

/-- Twenty-six one-letter filenames (one more than the 25 the spec requires). -/
def letters26 : List FNm :=
  [['a'], ['b'], ['c'], ['d'], ['e'], ['f'], ['g'], ['h'], ['i'], ['j'], ['k'],
   ['l'], ['m'], ['n'], ['o'], ['p'], ['q'], ['r'], ['s'], ['t'], ['u'], ['v'],
   ['w'], ['x'], ['y'], ['z']]

/-- Twenty-four one-letter filenames. -/
def letters24 : List FNm := letters26.take 24

/-- Twenty-five one-letter filenames. -/
def letters25 : List FNm := letters26.take 25

/-- Twenty-five one-letter filenames, out of sorted order. -/
def letters25unsorted : List FNm := ['b'] :: ['a'] :: letters25.drop 2

/-- A channel-0 filename of well A01 on plate 1. -/
def cnCh0 : FNm := "P_1_A01f00d0.TIF".data

/-- A channel-1 filename of the same well. -/
def cnCh1 : FNm := "P_1_A01f00d1.TIF".data

/-- A channel-2 filename of the same well. -/
def cnCh2 : FNm := "P_1_A01f00d2.TIF".data

/-- The pixel contribution of one channel entry: a present image's pixels, or
zeros for an absent channel. -/
def chanVal : Option Img → ℕ → ℕ → ℚ
  | none, _, _ => 0
  | some im, r, c => im.px r c

/-- The effect of one `stack_channels` loop iteration on the output array,
as a pure function of the fetched entry (`some` image copied into channel
`i`, `None` leaving the array unchanged). -/
def stackStepPure (ent : ℕ → Option Img) (acc : Img3) (i : ℕ) : Img3 :=
  match ent i with
  | none => acc
  | some im => updateChannel3 acc i im

/-- A 2×2 image of ones. -/
def onesImg : Img := ⟨2, 2, DType.float64, fun _ _ => 1⟩

/-- A 2×2 image of twos. -/
def twosImg : Img := ⟨2, 2, DType.float64, fun _ _ => 2⟩

/-- The channel entries fetched by `stack_channels` on
`[ones, twos, absent]` with order `[0, 1, 2]`. -/
def wEnt : ℕ → Option Img :=
  fun i => if i = 0 then some onesImg else if i = 1 then some twosImg else none

deriving instance DecidableEq for Except

theorem pyInt_error {s : List Char} {e : PyError} (h : pyInt s = Except.error e) :
    e = PyError.valueError := by
  unfold pyInt at h
  split at h <;> split at h <;> simp_all

theorem pyInt_digits {s : List Char} (hne : s ≠ []) (hd : s.all Char.isDigit = true) :
    pyInt s = Except.ok (digitsVal s) := by
  unfold pyInt
  split
  · simp only [List.all_cons, Bool.and_eq_true] at hd
    exact absurd hd.1 (by decide)
  · simp only [List.all_cons, Bool.and_eq_true] at hd
    exact absurd hd.1 (by decide)
  · rw [if_pos ⟨hne, hd⟩]

/-- C1: Decoding the filename `MFGTMP_140206180002_A01f00d0.TIF` succeeds and
yields exactly directory `""`, prefix `MFGTMP`, plate `140206180002`, well
`A01`, field `0`, channel `0`, suffix `TIF`. -/
theorem C1_decode_example :
    cellomics_semantic_filename "MFGTMP_140206180002_A01f00d0.TIF".data =
      Except.ok ⟨"".data, "MFGTMP".data, 140206180002, "A01".data, 0, 0, "TIF".data⟩ := by
  rfl

/-- C8 counterexample: on the malformed name `a_b.TIF` (only two segments) the
decoder fails with the host language's generic ValueError, not with a
dedicated MalformedFilenameError. -/
theorem C8_counterexample :
    cellomics_semantic_filename "a_b.TIF".data ≠
        Except.error PyError.malformedFilenameError ∧
      cellomics_semantic_filename "a_b.TIF".data = Except.error PyError.valueError :=
  ⟨by decide, rfl⟩

/-- C8 amended: every failure of the decoder is a generic ValueError (failed
unpack of the segment list, or a failed `int` parse) or IndexError (indexing
an empty code segment); no dedicated MalformedFilenameError exists. -/
theorem C8_amended (fn : FNm) (e : PyError)
    (h : cellomics_semantic_filename fn = Except.error e) :
    e = PyError.valueError ∨ e = PyError.indexError := by
  simp only [cellomics_semantic_filename, bind, Except.bind] at h
  split at h
  · rename_i s1 s2 s3 heq
    rcases h1 : pyInt ((s3.drop 4).take 2) with e1 | fld <;>
      rw [h1] at h <;> dsimp only at h
    · exact Or.inl ((Except.error.inj h).symm.trans (pyInt_error h1))
    · rcases h2 : s3.getLast? with _ | lastc <;> rw [h2] at h <;> dsimp only at h
      · exact Or.inr (Except.error.inj h).symm
      · rcases h3 : pyInt [lastc] with e3 | chan <;> rw [h3] at h <;> dsimp only at h
        · exact Or.inl ((Except.error.inj h).symm.trans (pyInt_error h3))
        · rcases h4 : pyInt s2 with e4 | plate <;> rw [h4] at h <;> dsimp only at h
          · exact Or.inl ((Except.error.inj h).symm.trans (pyInt_error h4))
          · exact absurd h (by simp)
  · exact Or.inl (Except.error.inj h).symm

/-- C10: the decoder never validates the literal `f` and `d` markers: any stem
of exactly three underscore-separated segments whose second segment is all
digits, whose third segment carries digits at positions 4-5 and a digit as
its final character decodes successfully, with the well taken from the first
three characters, the field from positions 4-5 and the channel from the last
character — whatever the characters at the marker positions are. -/
theorem C10_markers_not_validated (fn : FNm) (s1 s2 s3 : List Char) (c : Char)
    (hsplit : pySplit '_' ((pySplit '.' (osPathSplit fn).2).headD []) = [s1, s2, s3])
    (hs2 : s2 ≠ [] ∧ s2.all Char.isDigit = true)
    (hlen : 6 ≤ s3.length)
    (hf : ((s3.drop 4).take 2).all Char.isDigit = true)
    (hlast : s3.getLast? = some c)
    (hcd : c.isDigit = true) :
    cellomics_semantic_filename fn =
      Except.ok
        ⟨(osPathSplit fn).1, s1, digitsVal s2, s3.take 3,
          digitsVal ((s3.drop 4).take 2), digitsVal [c],
          List.intercalate ['.'] (pySplit '.' (osPathSplit fn).2).tail⟩ := by
  have hfe : (s3.drop 4).take 2 ≠ [] := by
    have : ((s3.drop 4).take 2).length = 2 := by
      simp [List.length_take, List.length_drop]; omega
    intro hnil
    rw [hnil] at this
    simp at this
  simp only [cellomics_semantic_filename, hsplit]
  have h4 : ¬ ([s1, s2, s3].length = 4) := by simp
  rw [if_neg h4]
  simp only [bind, Except.bind, pyInt_digits hfe hf, hlast,
    pyInt_digits hs2.1 hs2.2,
    pyInt_digits (by simp : [c] ≠ []) (by simp [hcd] : [c].all Char.isDigit = true)]

/-- C10 witness: the stem code `A01x00z5` (arbitrary `x` and `z` at the
marker positions) decodes to well `A01`, field 0, channel 5. -/
theorem C10_witness :
    cellomics_semantic_filename "PFX_12_A01x00z5.TIF".data =
      Except.ok
        ⟨(osPathSplit "PFX_12_A01x00z5.TIF".data).1, "PFX".data,
          digitsVal "12".data, "A01x00z5".data.take 3,
          digitsVal (("A01x00z5".data.drop 4).take 2), digitsVal ['5'],
          List.intercalate ['.']
            (pySplit '.' (osPathSplit "PFX_12_A01x00z5.TIF".data).2).tail⟩ :=
  C10_markers_not_validated "PFX_12_A01x00z5.TIF".data "PFX".data "12".data
    "A01x00z5".data '5' (by decide) ⟨by decide, by decide⟩ (by decide) (by decide)
    (by decide) (by decide)

/-- C5: rescaling the 1×3 image `[0, 2047, 4095]` to 8 bits under the no-clip
stretch (true minimum to 0, true maximum to 1) yields the unsigned 8-bit
image `[0, 127, 255]`. -/
theorem C5_rescale_example :
    rescale_from_12bit [[0, 2047, 4095]] (some 8) =
      RescaleResult.u8 [[0, 127, 255]] := by
  simp only [rescale_from_12bit, stretchlim, List.flatten_cons, List.flatten_nil,
    List.append_nil, List.foldl, List.map]
  norm_num [min_def, max_def, npRound, round_eq]
  exact ⟨rfl, rfl⟩

/-- C6 counterexample: with target bit depth 7 the rescaler does not fail; it
returns the stretched image unscaled. -/
theorem C6_counterexample :
    rescale_from_12bit [[0, 1]] (some 7) = RescaleResult.passthrough [[0, 1]] := by
  simp only [rescale_from_12bit, stretchlim, List.flatten_cons, List.flatten_nil,
    List.append_nil, List.foldl, List.map]
  norm_num [min_def, max_def]

/-- C6 amended: for every target bit depth other than 8 and 16 (including
`None`), the rescaler silently passes the stretch-normalized image through
unscaled instead of failing. -/
theorem C6_amended (image : QImg) (t : Option ℤ)
    (h8 : t ≠ some 8) (h16 : t ≠ some 16) :
    rescale_from_12bit image t = RescaleResult.passthrough (stretchlim image) := by
  simp [rescale_from_12bit, h8, h16]

/-- C6 witness: target bit depth 12 passes the image `[[0, 4095]]` through. -/
theorem C6_witness :
    rescale_from_12bit [[0, 4095]] (some 12) =
      RescaleResult.passthrough (stretchlim [[0, 4095]]) :=
  C6_amended [[0, 4095]] (some 12) (by decide) (by decide)

theorem exbind_ok {α β : Type _} (a : α) (f : α → Except PyError β) :
    (Except.ok a >>= f) = f a := rfl

theorem exbind_err {α β : Type _} (e : PyError) (f : α → Except PyError β) :
    ((Except.error e : Except PyError α) >>= f) = Except.error e := rfl

theorem listMaxInt_ne_none {l : List ℤ} (h : l ≠ []) : ∃ k, listMaxInt l = some k := by
  cases l with
  | nil => exact absurd rfl h
  | cons x xs => cases hx : listMaxInt xs <;> simp [listMaxInt, hx]

theorem fillChannels_ok (fuel : ℕ) :
    ∀ g : List (ℤ × Option (List FNm)), g ≠ [] → 3 - g.length ≤ fuel →
      ∃ l, fillChannels g = Except.ok l ∧ 3 ≤ l.length ∧
        ∃ t, l = g ++ t ∧ ∀ kv ∈ t, kv.2 = none := by
  induction fuel with
  | zero =>
    intro g hne hf
    unfold fillChannels
    rw [dif_neg (by omega)]
    exact ⟨g, rfl, by omega, [], by simp, by simp⟩
  | succ n ih =>
    intro g hne hf
    by_cases hlen : g.length < 3
    · obtain ⟨k, hk⟩ := listMaxInt_ne_none (show g.map Prod.fst ≠ [] by simpa using hne)
      unfold fillChannels
      rw [dif_pos hlen, hk]
      obtain ⟨l, hl, h3, t, ht, htn⟩ :=
        ih (g ++ [(k + 1, none)]) (by simp) (by simp; omega)
      refine ⟨l, hl, h3, (k + 1, none) :: t, ?_, ?_⟩
      · rw [ht, List.append_assoc]
        rfl
      · intro kv hkv
        rcases List.mem_cons.mp hkv with hkv | hkv
        · rw [hkv]
        · exact htn kv hkv
    · unfold fillChannels
      rw [dif_neg hlen]
      exact ⟨g, rfl, by omega, [], by simp, by simp⟩

/-- C3 amended: the gap-filling loop, run on any non-empty channel group,
succeeds and returns at least 3 entries: the original group followed by
synthesized absent entries — but the synthesized keys are `max + 1, …`, so
when the present channel indices are sparse (e.g. `{0, 2}`) an intermediate
missing channel such as 1 gets no slot. -/
theorem C3_amended (g : List (ℤ × Option (List FNm))) (hne : g ≠ []) :
    ∃ l, fillChannels g = Except.ok l ∧ 3 ≤ l.length ∧
      ∃ t, l = g ++ t ∧ ∀ kv ∈ t, kv.2 = none :=
  fillChannels_ok 3 g hne (by omega)

/-- C3 witness: a single-entry group is extended to three entries. -/
theorem C3_witness :
    ∃ l, fillChannels [((5 : ℤ), (none : Option (List FNm)))] = Except.ok l ∧
      3 ≤ l.length ∧ ∃ t, l = [((5 : ℤ), (none : Option (List FNm)))] ++ t ∧
        ∀ kv ∈ t, kv.2 = none :=
  C3_amended [(5, none)] (by decide)

/-- C3 counterexample: grouping an acquisition whose filenames carry only
channels 0 and 2 yields slots `{0, 2, 3}` — slot 1 never exists, contrary to
the claim that slots 0, 1, 2 always do. -/
theorem C3_counterexample :
    ∃ l, group_channels [cnCh0, cnCh2] = Except.ok l ∧ ∀ kv ∈ l, kv.1 ≠ 1 := by
  refine ⟨[(0, some [cnCh0]), (2, some [cnCh2]), (3, none)], ?_, by decide⟩
  have h1 : groupbyM get_channel [cnCh0, cnCh2] =
      Except.ok [(0, [cnCh0]), (2, [cnCh2])] := rfl
  unfold group_channels
  rw [h1, exbind_ok]
  show fillChannels [(0, some [cnCh0]), (2, some [cnCh2])] = _
  unfold fillChannels
  rw [dif_pos (by decide),
    show listMaxInt ([((0 : ℤ), some [cnCh0]), (2, some [cnCh2])].map Prod.fst) =
      some 2 by decide]
  unfold fillChannels
  rw [dif_neg (by decide)]
  rfl

theorem stackStepPure_m (ent : ℕ → Option Img) (acc : Img3) (i : ℕ) :
    (stackStepPure ent acc i).m = acc.m := by
  unfold stackStepPure
  cases ent i <;> rfl

theorem stackStepPure_n (ent : ℕ → Option Img) (acc : Img3) (i : ℕ) :
    (stackStepPure ent acc i).n = acc.n := by
  unfold stackStepPure
  cases ent i <;> rfl

theorem stackStepPure_dtype (ent : ℕ → Option Img) (acc : Img3) (i : ℕ) :
    (stackStepPure ent acc i).dtype = acc.dtype := by
  unfold stackStepPure
  cases ent i <;> rfl

theorem stackStepPure_px_ne (ent : ℕ → Option Img) (acc : Img3)
    (i ch r c : ℕ) (h : ch ≠ i) :
    (stackStepPure ent acc i).px r c ch = acc.px r c ch := by
  unfold stackStepPure
  cases ent i <;> simp [updateChannel3, h]

theorem stackStepPure_absent (ent : ℕ → Option Img) (acc : Img3) (i : ℕ)
    (h : ent i = none) : stackStepPure ent acc i = acc := by
  unfold stackStepPure
  rw [h]

theorem stackStepPure_present (ent : ℕ → Option Img) (acc : Img3) (i : ℕ)
    (im : Img) (h : ent i = some im) :
    stackStepPure ent acc i = updateChannel3 acc i im := by
  unfold stackStepPure
  rw [h]

/-- C4 amended: when the first entry is a present image (the source reads
`images[0].shape`, so entry 0 must be present — not merely some entry) and
every fetched entry is either absent or matches the first entry's shape and
dtype, `stack_channels` succeeds with a `(H, W, 3)` result taking `H`, `W`
and dtype from entry 0, whose output channel `i` equals the fetched entry
`images[order[i]]` when present and is all zeros when absent. -/
theorem C4_amended (img0 : Img) (images : List (Option Img)) (ord : List ℕ)
    (o : ℕ → ℕ) (ent : ℕ → Option Img)
    (h0 : pyGet images 0 = Except.ok (some img0))
    (hsteps : ∀ i, i < 3 → pyGet ord i = Except.ok (o i) ∧
      pyGet images (o i) = Except.ok (ent i))
    (hsh : ∀ i, i < 3 → ∀ im, ent i = some im →
      im.m = img0.m ∧ im.n = img0.n ∧ im.dtype = img0.dtype) :
    ∃ res, stack_channels images ord = Except.ok res ∧
      res.m = img0.m ∧ res.n = img0.n ∧ res.dtype = img0.dtype ∧
      ∀ i r c, i < 3 → r < img0.m → c < img0.n →
        res.px r c i = chanVal (ent i) r c := by
  have hstep : ∀ i, i < 3 → ∀ acc : Img3,
      stackStep images ord img0.m img0.n acc i =
        Except.ok (stackStepPure ent acc i) := by
    intro i hi acc
    obtain ⟨ho, he⟩ := hsteps i hi
    unfold stackStep
    rw [ho, exbind_ok]
    show (pyGet images (o i) >>= _) = _
    rw [he, exbind_ok]
    cases hent : ent i with
    | none => simp [stackStepPure, hent]
    | some im =>
      obtain ⟨hm, hn, -⟩ := hsh i hi im hent
      simp [stackStepPure, hent, hm, hn]
  have hs0 := hstep 0 (by omega)
  have hs1 := hstep 1 (by omega)
  have hs2 := hstep 2 (by omega)
  have hfold : stack_channels images ord =
      Except.ok (stackStepPure ent (stackStepPure ent (stackStepPure ent
        ⟨img0.m, img0.n, img0.dtype, fun _ _ _ => 0⟩ 0) 1) 2) := by
    unfold stack_channels
    rw [h0, exbind_ok]
    show (Except.ok img0 >>= _) = _
    rw [exbind_ok]
    show List.foldlM _ _ [0, 1, 2] = _
    simp only [List.foldlM, hs0, hs1, hs2, exbind_ok]
    rfl
  refine ⟨_, hfold, ?_, ?_, ?_, ?_⟩
  · simp [stackStepPure_m]
  · simp [stackStepPure_n]
  · simp [stackStepPure_dtype]
  · intro i r c hi hr hc
    have main : ∀ j, j < 3 →
        (stackStepPure ent ⟨img0.m, img0.n, img0.dtype, fun _ _ _ => 0⟩ j).px r c j
          = chanVal (ent j) r c := by
      intro j hj
      cases hent : ent j with
      | none => simp [stackStepPure, hent, chanVal]
      | some im =>
        obtain ⟨hm, hn, -⟩ := hsh j hj im hent
        simp [stackStepPure, hent, chanVal, updateChannel3, hm, hn,
          Nat.mod_eq_of_lt hr, Nat.mod_eq_of_lt hc]
    interval_cases i
    · rw [stackStepPure_px_ne ent _ 2 0 r c (by decide),
        stackStepPure_px_ne ent _ 1 0 r c (by decide)]
      exact main 0 (by omega)
    · rw [stackStepPure_px_ne ent _ 2 1 r c (by decide)]
      cases hent1 : ent 1 with
      | none =>
        rw [stackStepPure_absent ent _ 1 hent1,
          stackStepPure_px_ne ent _ 0 1 r c (by decide)]
        simp [chanVal]
      | some im =>
        obtain ⟨hm, hn, -⟩ := hsh 1 (by omega) im hent1
        rw [stackStepPure_present ent _ 1 im hent1]
        simp [chanVal, updateChannel3, hm, hn,
          Nat.mod_eq_of_lt hr, Nat.mod_eq_of_lt hc]
    · cases hent2 : ent 2 with
      | none =>
        rw [stackStepPure_absent ent _ 2 hent2,
          stackStepPure_px_ne ent _ 1 2 r c (by decide),
          stackStepPure_px_ne ent _ 0 2 r c (by decide)]
        simp [chanVal]
      | some im =>
        obtain ⟨hm, hn, -⟩ := hsh 2 (by omega) im hent2
        rw [stackStepPure_present ent _ 2 im hent2]
        simp [chanVal, updateChannel3, hm, hn,
          Nat.mod_eq_of_lt hr, Nat.mod_eq_of_lt hc]

/-- C4 counterexample: with entry 0 absent (and two present images), the
compositor does not succeed — it fails with an attribute error from reading
`images[0].shape`, contrary to the claim that it succeeds whenever at least
one entry is present. -/
theorem C4_counterexample :
    stack_channels [none, some onesImg, some twosImg] [0, 1, 2] =
      Except.error PyError.attributeError := rfl

/-- C4 witness: stacking ones, twos and an absent entry with order
`[0, 1, 2]` yields a 3-channel image: channel 0 all ones, channel 1 all
twos, channel 2 all zeros. -/
theorem C4_witness :
    ∃ res, stack_channels [some onesImg, some twosImg, none] [0, 1, 2] =
        Except.ok res ∧
      res.m = onesImg.m ∧ res.n = onesImg.n ∧ res.dtype = onesImg.dtype ∧
      ∀ i r c, i < 3 → r < onesImg.m → c < onesImg.n →
        res.px r c i = chanVal (wEnt i) r c :=
  C4_amended onesImg [some onesImg, some twosImg, none] [0, 1, 2]
    (fun i => i) wEnt rfl
    (by intro i hi; interval_cases i <;> exact ⟨rfl, rfl⟩)
    (by
      intro i hi im him
      interval_cases i
      · rw [show wEnt 0 = some onesImg from rfl] at him
        injection him with h
        rw [← h]
        exact ⟨rfl, rfl, rfl⟩
      · rw [show wEnt 1 = some twosImg from rfl] at him
        injection him with h
        rw [← h]
        exact ⟨rfl, rfl, rfl⟩
      · exact absurd him (by simp [wEnt]))

theorem charToNat_inj {a b : Char} (h : a.toNat = b.toNat) : a = b := by
  have hs : StrictMono Char.toNat := fun _ _ hab => hab
  exact hs.injective h

theorem pyStrLe_refl (l : List Char) : pyStrLe l l = true := by
  induction l with
  | nil => rfl
  | cons a as ih => simp [pyStrLe, ih]

theorem pyStrLe_append (x a b : List Char) :
    pyStrLe (x ++ a) (x ++ b) = pyStrLe a b := by
  induction x with
  | nil => rfl
  | cons c cs ih => simp [pyStrLe, ih]

theorem pyStrLe_cons (x y : Char) (xs ys : List Char) :
    pyStrLe (x :: xs) (y :: ys) = true ↔
      x.toNat < y.toNat ∨ (x.toNat = y.toNat ∧ pyStrLe xs ys = true) := by
  simp only [pyStrLe]
  split_ifs with h1 h2
  · simp [h1]
  · simp [h1, show x.toNat ≠ y.toNat by omega]
  · have hxy : x.toNat = y.toNat := by omega
    simp [h1, hxy]

theorem pyStrLe_total (a : List Char) : ∀ b, pyStrLe a b = true ∨ pyStrLe b a = true := by
  induction a with
  | nil => intro b; exact Or.inl rfl
  | cons x xs ih =>
    intro b
    cases b with
    | nil => exact Or.inr rfl
    | cons y ys =>
      rcases Nat.lt_trichotomy x.toNat y.toNat with h | h | h
      · exact Or.inl ((pyStrLe_cons x y xs ys).mpr (Or.inl h))
      · rcases ih ys with h2 | h2
        · exact Or.inl ((pyStrLe_cons x y xs ys).mpr (Or.inr ⟨h, h2⟩))
        · exact Or.inr ((pyStrLe_cons y x ys xs).mpr (Or.inr ⟨h.symm, h2⟩))
      · exact Or.inr ((pyStrLe_cons y x ys xs).mpr (Or.inl h))

theorem pyStrLe_trans (a : List Char) :
    ∀ b c, pyStrLe a b = true → pyStrLe b c = true → pyStrLe a c = true := by
  induction a with
  | nil => intro b c _ _; rfl
  | cons x xs ih =>
    intro b c hab hbc
    cases b with
    | nil => simp [pyStrLe] at hab
    | cons y ys =>
      cases c with
      | nil => simp [pyStrLe] at hbc
      | cons z zs =>
        rw [pyStrLe_cons] at hab hbc ⊢
        rcases hab with h | ⟨he, hab⟩ <;> rcases hbc with h' | ⟨he', hbc⟩
        · exact Or.inl (h.trans h')
        · exact Or.inl (he' ▸ h)
        · exact Or.inl (he ▸ h')
        · exact Or.inr ⟨he.trans he', ih ys zs hab hbc⟩

theorem pyStrLe_antisymm (a : List Char) :
    ∀ b, pyStrLe a b = true → pyStrLe b a = true → a = b := by
  induction a with
  | nil =>
    intro b _ hba
    cases b with
    | nil => rfl
    | cons y ys => simp [pyStrLe] at hba
  | cons x xs ih =>
    intro b hab hba
    cases b with
    | nil => simp [pyStrLe] at hab
    | cons y ys =>
      rw [pyStrLe_cons] at hab hba
      rcases hab with h | ⟨he, hab⟩
      · rcases hba with h' | ⟨he', _⟩
        · omega
        · omega
      · rcases hba with h' | ⟨_, hba⟩
        · omega
        · rw [charToNat_inj he, ih ys hab hba]

instance : IsTotal FNm StrLe := ⟨fun a b => pyStrLe_total a b⟩

instance : IsTrans FNm StrLe := ⟨fun a b c => pyStrLe_trans a b c⟩

instance : IsAntisymm FNm StrLe := ⟨fun a b => pyStrLe_antisymm a b⟩

theorem digitChar_toNat : ∀ d, d < 10 → (Nat.digitChar d).toNat = 48 + d := by decide

theorem fieldDigits_le {f g : ℕ} (hfg : f ≤ g) (hg : g < 25) (rest : List Char) :
    pyStrLe (fieldDigits f ++ rest) (fieldDigits g ++ rest) = true := by
  have d1 := digitChar_toNat (f / 10) (by omega)
  have d2 := digitChar_toNat (g / 10) (by omega)
  have d3 := digitChar_toNat (f % 10) (by omega)
  have d4 := digitChar_toNat (g % 10) (by omega)
  show pyStrLe (Nat.digitChar (f / 10) :: Nat.digitChar (f % 10) :: rest)
      (Nat.digitChar (g / 10) :: Nat.digitChar (g % 10) :: rest) = true
  rw [pyStrLe_cons, d1, d2]
  rcases Nat.lt_or_ge (f / 10) (g / 10) with h | h
  · exact Or.inl (by omega)
  · refine Or.inr ⟨by omega, ?_⟩
    rw [pyStrLe_cons, d3, d4]
    rcases Nat.lt_or_ge (f % 10) (g % 10) with h2 | h2
    · exact Or.inl (by omega)
    · have hfgeq : f = g := by omega
      subst hfgeq
      exact Or.inr ⟨rfl, pyStrLe_refl rest⟩

theorem cellomicsName_le (pfx plateStr well : FNm) (ch : Char) (sfx : FNm)
    {f g : ℕ} (hfg : f ≤ g) (hg : g < 25) :
    StrLe (cellomicsName pfx plateStr well f ch sfx)
      (cellomicsName pfx plateStr well g ch sfx) := by
  unfold StrLe cellomicsName
  have hsplit : ∀ k : ℕ,
      pfx ++ '_' :: plateStr ++ '_' :: well ++ 'f' :: fieldDigits k ++
          'd' :: ch :: '.' :: sfx =
        (pfx ++ '_' :: plateStr ++ '_' :: well ++ ['f']) ++
          (fieldDigits k ++ 'd' :: ch :: '.' :: sfx) := by
    intro k
    simp
  rw [hsplit f, hsplit g, pyStrLe_append]
  exact fieldDigits_le hfg hg _

theorem nameList_sorted (pfx plateStr well : FNm) (ch : Char) (sfx : FNm) :
    List.Sorted StrLe (nameList pfx plateStr well ch sfx) := by
  show List.Pairwise StrLe
    ((List.range 25).map fun f => cellomicsName pfx plateStr well f ch sfx)
  rw [List.pairwise_map]
  refine List.Pairwise.imp_of_mem ?_ (List.pairwise_lt_range 25)
  intro a b _ hb hab
  exact cellomicsName_le pfx plateStr well ch sfx (le_of_lt hab)
    (List.mem_range.mp hb)

theorem sortPy_eq_of_perm {l target : List FNm} (hp : List.Perm l target)
    (hs : List.Sorted StrLe target) : sortPy l = target := by
  unfold sortPy
  exact List.eq_of_perm_of_sorted ((List.perm_insertionSort StrLe l).trans hp)
    (List.sorted_insertionSort StrLe l) hs

theorem pyGet_eq_getElem? {α : Type _} (l : List α) (k : ℕ) :
    pyGet l k = (match l[k]? with
      | some x => Except.ok x
      | none => Except.error PyError.indexError) := by
  induction l generalizing k with
  | nil => cases k <;> rfl
  | cons x xs ih => cases k with
    | zero => simp [pyGet]
    | succ n => simpa using ih n

theorem pyGet_nameList (pfx plateStr well : FNm) (ch : Char) (sfx : FNm)
    (k : ℕ) (hk : k < 25) :
    pyGet (nameList pfx plateStr well ch sfx) k =
      Except.ok (cellomicsName pfx plateStr well k ch sfx) := by
  rw [pyGet_eq_getElem?]
  unfold nameList
  rw [List.getElem?_map, List.getElem?_range hk]
  rfl

theorem snail_lookup : ∀ i, i < 5 → ∀ j, j < 5 →
    pyGet snailOrderTable i = Except.ok (snailOrderTable.getD i []) ∧
      pyGet (snailOrderTable.getD i []) j = Except.ok (snailIdx (i, j)) := by
  decide

theorem placeTile_out (m n i j : ℕ) (src : Img) (old : ℕ → ℕ → ℚ) (r c : ℕ)
    (h : ¬(m * i ≤ r ∧ r < m * (i + 1) ∧ n * j ≤ c ∧ c < n * (j + 1))) :
    placeTile m n i j src old r c = old r c := by
  simp [placeTile, h]

theorem placeTile_in (m n i j : ℕ) (src : Img) (old : ℕ → ℕ → ℚ) (r c : ℕ)
    (hm : src.m = m) (hn : src.n = n) (hr : r < m) (hc : c < n) :
    placeTile m n i j src old (m * i + r) (n * j + c) = src.px r c := by
  have hcond : m * i ≤ m * i + r ∧ m * i + r < m * (i + 1) ∧
      n * j ≤ n * j + c ∧ n * j + c < n * (j + 1) := by
    rw [Nat.mul_succ, Nat.mul_succ]
    omega
  simp only [placeTile, if_pos hcond, hm, hn, Nat.add_sub_cancel_left,
    Nat.mod_eq_of_lt hr, Nat.mod_eq_of_lt hc]

theorem stitch_fold_ok (imread : FNm → Img) (fns : List FNm) (M N : ℕ)
    (tf : ℕ × ℕ → FNm) :
    ∀ cs : List (ℕ × ℕ), (∀ cell ∈ cs, cell.1 < 5 ∧ cell.2 < 5) →
      (∀ cell ∈ cs, pyGet fns (snailIdx cell) = Except.ok (tf cell) ∧
        (imread (tf cell)).m = M ∧ (imread (tf cell)).n = N) →
      ∀ px, List.foldlM (stitchStep imread fns M N) px cs =
        Except.ok (cs.foldl (fun p cell =>
          placeTile M N cell.1 cell.2 (imread (tf cell)) p) px) := by
  intro cs
  induction cs with
  | nil => intro _ _ px; rfl
  | cons cell rest ih =>
    intro hb hget px
    obtain ⟨h1, h2⟩ := hb cell (by simp)
    obtain ⟨hg, hm, hn⟩ := hget cell (by simp)
    obtain ⟨hr1, hr2⟩ := snail_lookup cell.1 h1 cell.2 h2
    have hstep : stitchStep imread fns M N px cell =
        Except.ok (placeTile M N cell.1 cell.2 (imread (tf cell)) px) := by
      unfold stitchStep
      simp only [hr1, hr2, hg, exbind_ok]
      rw [if_pos ⟨Or.inl hm, Or.inl hn⟩]
    simp only [List.foldlM, hstep, exbind_ok, List.foldl_cons]
    exact ih (fun d hd => hb d (by simp [hd])) (fun d hd => hget d (by simp [hd])) _

/-- C2: on any ordering of the 25 filenames of one (plate, well, channel)
with fields 0 … 24 and equal tile shapes (M, N), `snail_stitch` sorts them
lexicographically — which orders them by ascending field index — and returns
a (5M, 5N) image in which the field-0 tile occupies the center grid cell
(row 2, col 2) and the field-9 tile occupies row 1, col 4. -/
theorem C2_snail_stitch (pfx plateStr well : FNm) (ch : Char) (sfx : FNm)
    (imread : FNm → Img) (M N : ℕ)
    (hShape : ∀ f, f < 25 →
      (imread (cellomicsName pfx plateStr well f ch sfx)).m = M ∧
      (imread (cellomicsName pfx plateStr well f ch sfx)).n = N)
    (l : List FNm) (hl : List.Perm l (nameList pfx plateStr well ch sfx)) :
    sortPy l = nameList pfx plateStr well ch sfx ∧
    ∃ img, (snail_stitch imread l).2 = Except.ok img ∧
      img.m = 5 * M ∧ img.n = 5 * N ∧
      (∀ r c, r < M → c < N →
        img.px (M * 2 + r) (N * 2 + c) =
          (imread (cellomicsName pfx plateStr well 0 ch sfx)).px r c) ∧
      (∀ r c, r < M → c < N →
        img.px (M * 1 + r) (N * 4 + c) =
          (imread (cellomicsName pfx plateStr well 9 ch sfx)).px r c) := by
  have hsort : sortPy l = nameList pfx plateStr well ch sfx :=
    sortPy_eq_of_perm hl (nameList_sorted pfx plateStr well ch sfx)
  have hm0 := (hShape 0 (by omega)).1
  have hn0 := (hShape 0 (by omega)).2
  have hm9 := (hShape 9 (by omega)).1
  have hn9 := (hShape 9 (by omega)).2
  have hget0 : pyGet (nameList pfx plateStr well ch sfx) 0 =
      Except.ok (cellomicsName pfx plateStr well 0 ch sfx) :=
    pyGet_nameList pfx plateStr well ch sfx 0 (by omega)
  have hbounds : ∀ cell ∈ gridCells, cell.1 < 5 ∧ cell.2 < 5 := by decide
  have hidx : ∀ cell ∈ gridCells, snailIdx cell < 25 := by decide
  have hget : ∀ cell ∈ gridCells,
      pyGet (nameList pfx plateStr well ch sfx) (snailIdx cell) =
        Except.ok (cellomicsName pfx plateStr well (snailIdx cell) ch sfx) ∧
      (imread (cellomicsName pfx plateStr well (snailIdx cell) ch sfx)).m = M ∧
      (imread (cellomicsName pfx plateStr well (snailIdx cell) ch sfx)).n = N := by
    intro cell hc
    exact ⟨pyGet_nameList _ _ _ _ _ _ (hidx cell hc),
      (hShape _ (hidx cell hc)).1, (hShape _ (hidx cell hc)).2⟩
  have hfold := stitch_fold_ok imread (nameList pfx plateStr well ch sfx) M N
    (fun cell => cellomicsName pfx plateStr well (snailIdx cell) ch sfx)
    gridCells hbounds hget (fun _ _ => 0)
  refine ⟨hsort, ?_⟩
  simp only [snail_stitch, hsort]
  simp only [hget0, exbind_ok]
  rw [hm0, hn0]
  rw [hfold, exbind_ok]
  refine ⟨_, rfl, rfl, rfl, ?_, ?_⟩
  · intro r c hr hc
    rw [show gridCells = [(0,0),(0,1),(0,2),(0,3),(0,4),(1,0),(1,1),(1,2),(1,3),
      (1,4),(2,0),(2,1),(2,2),(2,3),(2,4),(3,0),(3,1),(3,2),(3,3),(3,4),(4,0),
      (4,1),(4,2),(4,3),(4,4)] from rfl]
    simp only [List.foldl_cons, List.foldl_nil]
    simp (disch := omega) only [placeTile_out]
    rw [show snailIdx (2, 2) = 0 from rfl]
    rw [placeTile_in M N 2 2 (imread (cellomicsName pfx plateStr well 0 ch sfx))
      _ r c hm0 hn0 hr hc]
  · intro r c hr hc
    rw [show gridCells = [(0,0),(0,1),(0,2),(0,3),(0,4),(1,0),(1,1),(1,2),(1,3),
      (1,4),(2,0),(2,1),(2,2),(2,3),(2,4),(3,0),(3,1),(3,2),(3,3),(3,4),(4,0),
      (4,1),(4,2),(4,3),(4,4)] from rfl]
    simp only [List.foldl_cons, List.foldl_nil]
    simp (disch := omega) only [placeTile_out]
    rw [show snailIdx (1, 4) = 9 from rfl]
    rw [placeTile_in M N 1 4 (imread (cellomicsName pfx plateStr well 9 ch sfx))
      _ r c hm9 hn9 hr hc]

/-- C2 witness: 25 concrete one-pixel tiles named `P_1_A01fXXd0.T`, fields
0 … 24, stitch into a 5×5 image with the stated tile placement. -/
theorem C2_witness :
    sortPy (nameList ['P'] ['1'] ['A', '0', '1'] '0' ['T']) =
        nameList ['P'] ['1'] ['A', '0', '1'] '0' ['T'] ∧
      ∃ img, (snail_stitch constImread
          (nameList ['P'] ['1'] ['A', '0', '1'] '0' ['T'])).2 = Except.ok img ∧
        img.m = 5 * 1 ∧ img.n = 5 * 1 ∧
        (∀ r c, r < 1 → c < 1 → img.px (1 * 2 + r) (1 * 2 + c) =
          (constImread (cellomicsName ['P'] ['1'] ['A', '0', '1'] 0 '0' ['T'])).px r c) ∧
        (∀ r c, r < 1 → c < 1 → img.px (1 * 1 + r) (1 * 4 + c) =
          (constImread (cellomicsName ['P'] ['1'] ['A', '0', '1'] 9 '0' ['T'])).px r c) :=
  C2_snail_stitch ['P'] ['1'] ['A', '0', '1'] '0' ['T'] constImread 1 1
    (fun _ _ => ⟨rfl, rfl⟩) (nameList ['P'] ['1'] ['A', '0', '1'] '0' ['T'])
    (List.Perm.refl _)

/-- C9 counterexample: `snail_stitch` sorts the caller's list in place; on a
25-name list given out of order, the caller's list after the call differs
from the list passed in. -/
theorem C9_counterexample :
    (snail_stitch constImread letters25unsorted).1 ≠ letters25unsorted := by
  decide

/-- C9 amended: the only side effect of the core operations is
`snail_stitch`'s in-place `fns.sort()`: after the call the caller's list
holds the same filenames, but re-ordered ascending (lexicographically) —
not in their original order. -/
theorem C9_amended (imread : FNm → Img) (l : List FNm) :
    (snail_stitch imread l).1 = sortPy l ∧ List.Perm (sortPy l) l ∧
      List.Sorted StrLe (sortPy l) :=
  ⟨rfl, List.perm_insertionSort StrLe l, List.sorted_insertionSort StrLe l⟩

theorem pyGet_error {α : Type _} {l : List α} {k : ℕ} {e : PyError}
    (h : pyGet l k = Except.error e) : e = PyError.indexError := by
  induction l generalizing k with
  | nil => cases k <;> exact (Except.error.inj h).symm
  | cons x xs ih =>
    cases k with
    | zero => exact absurd h (by simp [pyGet])
    | succ n => exact ih h

theorem stitchStep_error (imread : FNm → Img) (fns : List FNm) (m n : ℕ)
    (px : ℕ → ℕ → ℚ) (cell : ℕ × ℕ) (e : PyError)
    (h : stitchStep imread fns m n px cell = Except.error e) :
    e = PyError.indexError ∨ e = PyError.valueError := by
  unfold stitchStep at h
  rcases h1 : pyGet snailOrderTable cell.1 with e1 | row <;> rw [h1] at h <;>
    simp only [exbind_err, exbind_ok] at h
  · exact Or.inl ((Except.error.inj h).symm.trans (pyGet_error h1))
  · rcases h2 : pyGet row cell.2 with e2 | idx <;> rw [h2] at h <;>
      simp only [exbind_err, exbind_ok] at h
    · exact Or.inl ((Except.error.inj h).symm.trans (pyGet_error h2))
    · rcases h3 : pyGet fns idx with e3 | fn <;> rw [h3] at h <;>
        simp only [exbind_err, exbind_ok] at h
      · exact Or.inl ((Except.error.inj h).symm.trans (pyGet_error h3))
      · split at h
        · exact absurd h (by simp)
        · exact Or.inr (Except.error.inj h).symm

theorem stitch_fold_error (imread : FNm → Img) (fns : List FNm) (m n : ℕ) :
    ∀ (cs : List (ℕ × ℕ)) (px : ℕ → ℕ → ℚ) (e : PyError),
      List.foldlM (stitchStep imread fns m n) px cs = Except.error e →
      e = PyError.indexError ∨ e = PyError.valueError := by
  intro cs
  induction cs with
  | nil =>
    intro px e h
    exact absurd h (by simp [List.foldlM, pure, Except.pure])
  | cons cell rest ih =>
    intro px e h
    simp only [List.foldlM] at h
    rcases hs : stitchStep imread fns m n px cell with e1 | px1 <;> rw [hs] at h <;>
      simp only [exbind_err, exbind_ok] at h
    · exact (Except.error.inj h) ▸ stitchStep_error imread fns m n px cell e1 hs
    · exact ih px1 e h

theorem snail_stitch_error (imread : FNm → Img) (fns : List FNm) (e : PyError)
    (h : (snail_stitch imread fns).2 = Except.error e) :
    e = PyError.indexError ∨ e = PyError.valueError := by
  simp only [snail_stitch] at h
  rcases h0 : pyGet (sortPy fns) 0 with e0 | f0 <;> rw [h0] at h <;>
    simp only [exbind_err, exbind_ok] at h
  · exact Or.inl ((Except.error.inj h).symm.trans (pyGet_error h0))
  · rcases hf : List.foldlM
        (stitchStep imread (sortPy fns) (imread f0).m (imread f0).n)
        (fun _ _ => 0) gridCells with e1 | px1 <;> rw [hf] at h <;>
      simp only [exbind_err, exbind_ok] at h
    · exact (Except.error.inj h) ▸
        stitch_fold_error imread (sortPy fns) (imread f0).m (imread f0).n
          gridCells (fun _ _ => 0) e1 hf
    · exact absurd h (by simp)

/-- C7 amended: `snail_stitch` has no dedicated TileCountError or
TileShapeMismatchError — every failure is a generic IndexError (indexing
past the end of a short list) or ValueError (non-broadcastable slice
assignment); concretely, 24 equal tiles fail with IndexError, and 25 tiles
whose shapes mismatch non-broadcastably fail with ValueError.  (An input of
more than 25 tiles does not fail at all — see the counterexample.) -/
theorem C7_amended :
    (∀ (imread : FNm → Img) (fns : List FNm) (e : PyError),
      (snail_stitch imread fns).2 = Except.error e →
      e = PyError.indexError ∨ e = PyError.valueError) ∧
    (snail_stitch constImread letters24).2 = Except.error PyError.indexError ∧
    (snail_stitch mismatchImread letters25).2 = Except.error PyError.valueError := by
  refine ⟨fun imread fns e h => snail_stitch_error imread fns e h, ?_, ?_⟩ <;> rfl

/-- C7 counterexample: a 26-tile input does not fail at all — `snail_stitch`
silently stitches the first 25 sorted names — contrary to the claim that any
tile count other than 25 fails with TileCountError. -/
theorem C7_counterexample :
    ∃ img, (snail_stitch constImread letters26).2 = Except.ok img :=
  ⟨_, rfl⟩

/-- C7 witness: the error-kind bound applied to the concrete 24-tile run. -/
theorem C7_witness :
    PyError.indexError = PyError.indexError ∨
      PyError.indexError = PyError.valueError :=
  C7_amended.1 constImread letters24 PyError.indexError rfl

/-- C8 witness: the error-kind bound applied to the two-segment name. -/
theorem C8_witness :
    PyError.valueError = PyError.valueError ∨
      PyError.valueError = PyError.indexError :=
  C8_amended "a_b.TIF".data PyError.valueError rfl
